import Mathlib

/-!
Verification of the dtEEMCG cell-transformation engine (src/src/main.rs) and
the dtproton reshape variant (src/src/proton.rs).

Cell values are modelled as lists of characters (`Str`); Rust's byte-oriented
`str` operations (`contains`, `replace`, `trim`, the regexes used by the
program) act on well-formed UTF-8, so they coincide with the corresponding
operations on character lists.
-/

namespace DtEEMCG

/-- A cell's text value, as a list of Unicode scalar values. -/
abbrev Str := List Char

/-- Rust `str::contains` for a literal pattern `p`: some suffix of `s`
starts with `p`. -/
def containsSub (p : Str) : Str → Bool
  | [] => List.isPrefixOf p []
  | c :: rest => List.isPrefixOf p (c :: rest) || containsSub p rest

/-- Rust `str::replace` (leftmost, non-overlapping, global), with explicit
fuel; `fuel = s.length` is always sufficient for non-empty patterns. -/
def replaceAllF (p r : Str) : Nat → Str → Str
  | _, [] => []
  | 0, s => s
  | fuel + 1, c :: rest =>
      if List.isPrefixOf p (c :: rest) then
        r ++ replaceAllF p r fuel (List.drop (p.length - 1) rest)
      else
        c :: replaceAllF p r fuel rest

/-- Rust `value.replace(p, r)` on a cell value. -/
def replaceAll (p r s : Str) : Str := replaceAllF p r s.length s

/-- Unicode `White_Space` property, as used by Rust `str::trim`. -/
def isWs (c : Char) : Bool :=
  c.toNat == 0x09 || c.toNat == 0x0A || c.toNat == 0x0B || c.toNat == 0x0C ||
  c.toNat == 0x0D || c.toNat == 0x20 || c.toNat == 0x85 || c.toNat == 0xA0 ||
  c.toNat == 0x1680 || (0x2000 ≤ c.toNat && c.toNat ≤ 0x200A) ||
  c.toNat == 0x2028 || c.toNat == 0x2029 || c.toNat == 0x202F ||
  c.toNat == 0x205F || c.toNat == 0x3000

/-- Rust `str::trim_start`. -/
def trimLeft (s : Str) : Str := s.dropWhile isWs

/-- Rust `str::trim_end`. -/
def trimRight (s : Str) : Str := (trimLeft s.reverse).reverse

/-- Rust `str::trim`. -/
def trim (s : Str) : Str := trimLeft (trimRight s)

/-- The regex `\([^)]*\)` has a match in `s`: some `(` is followed,
further right, by some `)`. -/
def hasParen : Str → Bool
  | [] => false
  | c :: rest => (c == '(' && rest.contains ')') || hasParen rest

/-- The suffix after the first `)` of `s`, if `s` has one. -/
def afterClose : Str → Option Str
  | [] => none
  | c :: rest => if c = ')' then some rest else afterClose rest

/-- Model of `re.replace_all(&value, "")` for the regex `\([^)]*\)`: remove every
span from a `(` through the first `)` after it (fueled; `fuel = s.length`
suffices). -/
def stripParensF : Nat → Str → Str
  | _, [] => []
  | 0, s => s
  | fuel + 1, c :: rest =>
      if c = '(' then
        match afterClose rest with
        | some after => stripParensF fuel after
        | none => c :: rest
      else
        c :: stripParensF fuel rest

/-- Remove every parenthesized span `\([^)]*\)` from a cell value. -/
def stripParens (s : Str) : Str := stripParensF s.length s

/-! ### The rule pipeline of `find_target_cells` (src/src/main.rs lines 95-156) -/

/-- Substitution pattern of main.rs line 102. -/
def pat1 : Str := "甲烷非甲烷分析仪".data

/-- Replacement of main.rs line 103. -/
def rep1 : Str := "NMHC监测仪".data

/-- Substitution pattern of main.rs line 105. -/
def pat2 : Str := "VOCs在线监测仪".data

/-- Replacement of main.rs line 106. -/
def rep2 : Str := "VOCs监测仪".data

/-- Substitution pattern of main.rs line 109. -/
def pat3 : Str := "总烃(ppbvC)".data

/-- Replacement of main.rs line 110. -/
def rep3 : Str := "总烃(ppbC)".data

/-- Substitution pattern of main.rs line 117. -/
def pat4 : Str := "间、对-二甲苯".data

/-- Replacement of main.rs line 118. -/
def rep4 : Str := "间/对-二甲苯".data

/-- Substitution pattern of main.rs line 120. -/
def pat5 : Str := "邻二甲苯".data

/-- Replacement of main.rs line 121. -/
def rep5 : Str := "邻-二甲苯".data

/-- The sentinel substring `-999` of main.rs line 125. -/
def sent : Str := "-999".data

/-- Main.rs lines 102-104: `if value.contains(pat1) { value.replace(pat1, rep1) }`. -/
def subst1 (v : Str) : Str := if containsSub pat1 v then replaceAll pat1 rep1 v else v

/-- Main.rs lines 105-107. -/
def subst2 (v : Str) : Str := if containsSub pat2 v then replaceAll pat2 rep2 v else v

/-- Main.rs lines 109-111 (added 2026-01-21). -/
def subst3 (v : Str) : Str := if containsSub pat3 v then replaceAll pat3 rep3 v else v

/-- Main.rs lines 113-115: the targeted D1 header correction
(`row_1based == 1 && col_1based == 4 && value == "总烃(ppbvC)"`). -/
def targetedD1 (row col : Nat) (v : Str) : Str :=
  if row = 1 ∧ col = 4 ∧ v = pat3 then rep3 else v

/-- Main.rs lines 117-119. -/
def subst4 (v : Str) : Str := if containsSub pat4 v then replaceAll pat4 rep4 v else v

/-- Main.rs lines 120-122. -/
def subst5 (v : Str) : Str := if containsSub pat5 v then replaceAll pat5 rep5 v else v

/-- The literal-substitution block of main.rs lines 101-122, including the
targeted D1 header correction at lines 113-115, in source order. -/
def substStep (row col : Nat) (v0 : Str) : Str :=
  subst5 (subst4 (targetedD1 row col (subst3 (subst2 (subst1 v0)))))

/-- The same substitution block with the targeted header correction of
lines 113-115 removed; the pipeline variant claim C10 compares against. -/
def substStepNoTarget (v0 : Str) : Str :=
  subst5 (subst4 (subst3 (subst2 (subst1 v0))))

/-- The anchor-gated `-999` rewrite of main.rs lines 124-138. The four
anchors are the values of cells I3, K3, Q3, AY3, read before the loop. -/
def sentinelStep (i3 k3 q3 ay3 : Str) (row col : Nat) (v : Str) : Str :=
  if 4 ≤ row ∧ containsSub sent v = true then
    let v1 := if col = 9 ∧ i3 = "a24514".data then "-999#a24041".data else v
    let v2 := if col = 11 ∧ k3 = "a24011".data then "-999#a24537".data else v1
    let v3 := if col = 17 ∧ q3 = "a24510".data then "-999#a24504".data else v2
    if col = 51 ∧ ay3 = "a25014".data then "-999#a25501".data else v3
  else v

/-- The bracket-stripping rule of main.rs lines 140-144: at rows ≥ 3, if the
regex `\([^)]*\)` matches, remove every match and set the red-fill flag. -/
def bracketStep (row : Nat) (v : Str) : Str × Bool :=
  if 3 ≤ row ∧ hasParen v = true then (stripParens v, true) else (v, false)

/-- The full per-cell rule pipeline: substitutions, then the anchor-gated
sentinel rewrite, then bracket stripping.  Returns the pre-trim value and
the red-fill flag. -/
def transformValue (i3 k3 q3 ay3 : Str) (row col : Nat) (orig : Str) : Str × Bool :=
  bracketStep row (sentinelStep i3 k3 q3 ay3 row col (substStep row col orig))

/-- The same pipeline built on `substStepNoTarget`: the engine as it would
be without the targeted header correction of lines 113-115 (claim C10). -/
def transformValueNoTarget (i3 k3 q3 ay3 : Str) (row col : Nat) (orig : Str) : Str × Bool :=
  bracketStep row (sentinelStep i3 k3 q3 ay3 row col (substStepNoTarget orig))

/-- A pending cell update (struct `CellUpdate` of main.rs lines 9-13). -/
structure CellUpdate where
  value : Str
  make_red_fill : Bool
deriving DecidableEq

/-- Main.rs lines 146-154: a cell enters the update map iff the pipeline
value differs from the original; the stored value is trimmed. -/
def cellUpdate (i3 k3 q3 ay3 : Str) (row col : Nat) (orig : Str) : Option CellUpdate :=
  if (transformValue i3 k3 q3 ay3 row col orig).1 ≠ orig then
    some ⟨trim (transformValue i3 k3 q3 ay3 row col orig).1,
      (transformValue i3 k3 q3 ay3 row col orig).2⟩
  else none


/-! ### The grid and the update map

A `calamine::Range` is a rectangle: `get_size()` returns `(height, width)`,
`get((r, c))` yields `None` outside it, and an empty range has size `(0, 0)`
(a range with rows necessarily has positive width and vice versa).  The two
structure invariants below record exactly those facts about the source of
the grid data. -/

/-- The worksheet snapshot read by `find_target_cells`: `width` is the
nominal width from `get_size()`, `rows` the cell texts row by row
(missing trailing cells simply absent from the inner lists). -/
structure Grid where
  width : Nat
  rows : List (List Str)
  hwf : ∀ r ∈ rows, r.length ≤ width
  hne : rows = [] → width = 0

/-- Reading `datatype_to_string(range.get((r, c)))` with 0-based `r`, `c`: empty
text when out of range. -/
def getCell (g : Grid) (r c : Nat) : Str := (g.rows.getD r []).getD c []

/-- The inner loop of main.rs lines 70-76: the 1-based index of the last
non-empty cell among columns `0..width` of one row (0 if none). -/
def lastNonEmptyRow (width : Nat) (rowCells : List Str) : Nat :=
  (List.range width).foldl
    (fun last col => if rowCells.getD col [] ≠ [] then col + 1 else last) 0

/-- Main.rs lines 68-83: the maximum of `lastNonEmptyRow` over all rows,
falling back to the nominal width when that maximum is 0. -/
def maxColumnOf (g : Grid) : Nat :=
  let m := g.rows.foldl (fun acc rowCells => max acc (lastNonEmptyRow g.width rowCells)) 0
  if m = 0 then g.width else m

/-- The nested loop of main.rs lines 95-156: `row_1based` in `1..=height`,
`col_1based` in `1..=max_column`, with the four anchors I3, K3, Q3, AY3
read from row 3 (0-based row 2, columns 8, 10, 16, 50) before the loop. -/
def updatesOf (g : Grid) : List ((Nat × Nat) × CellUpdate) :=
  (List.range g.rows.length).flatMap (fun r0 =>
    (List.range (maxColumnOf g)).filterMap (fun c0 =>
      (cellUpdate (getCell g 2 8) (getCell g 2 10) (getCell g 2 16) (getCell g 2 50)
        (r0 + 1) (c0 + 1) (getCell g r0 c0)).map
        (fun u => ((r0 + 1, c0 + 1), u))))

/-- Function `find_target_cells` (main.rs lines 54-159) on the in-memory grid:
returns `(height, max_column, updates)`, with the early return
`(height, 0, empty)` of line 64 when the range is degenerate.  The update
map is modelled as the association list produced by the loop (its keys are
pairwise distinct, so it carries the same information as the `HashMap`). -/
def findTargetCells (g : Grid) : Nat × Nat × List ((Nat × Nat) × CellUpdate) :=
  if g.rows.length = 0 ∨ g.width = 0 then (g.rows.length, 0, [])
  else (g.rows.length, maxColumnOf g, updatesOf g)

/-- The restricted engine of claim C5: literal substitutions (with the
targeted header correction), bracket stripping, and the final trim — the
full pipeline minus the anchor-gated sentinel rule. -/
def restrictedValue (row col : Nat) (v : Str) : Str :=
  trim (bracketStep row (substStep row col v)).1

/-- Rule 4 plus the final trim on its own: bracket stripping then trim. -/
def bracketTrim (row : Nat) (v : Str) : Str := trim (bracketStep row v).1

/-- Spec-side definition (§3 of the spec): a row's last non-empty column
index, 1-based, 0 if the row is entirely empty within the nominal width. -/
def specRowLast (width : Nat) (rowCells : List Str) : Nat :=
  ((List.range width).filter (fun c => rowCells.getD c [] ≠ [])).foldr
    (fun c acc => max (c + 1) acc) 0

/-- Spec-side definition (§3 of the spec): the maximum of `specRowLast`
over all rows. -/
def specMaxColumn (g : Grid) : Nat :=
  (g.rows.map (specRowLast g.width)).foldr max 0

/-- A one-cell grid holding `" a "`. -/
def gridWs : Grid :=
  ⟨1, [[" a ".data]], by decide, by decide⟩

/-- A grid whose first row has content in columns 1-5, second row empty,
nominal width 7. -/
def gridExtent : Grid :=
  ⟨7, [["x".data, "x".data, "x".data, "x".data, "x".data], []], by decide, by decide⟩

/-- A grid whose only content is `"foo(bar)"` at row 3, column 1. -/
def gridChange : Grid :=
  ⟨1, [[], [], ["foo(bar)".data]], by decide, by decide⟩


/-! ### The reshape variant (src/src/proton.rs)

`parse_time_to_target_format` delegates the actual datetime parsing and
formatting to the external chrono library; those two capabilities are taken
as parameters (`parse`, `fmt`), since the claims about this code depend only
on how their results are used.  `f64::from_str`, by contrast, accepts a
purely syntactic grammar (documented in the Rust standard library), which is
embedded concretely below. -/

/-- Exponent suffix of the Rust float grammar:
`'' | ('e'|'E') Sign? Digit+`. -/
def expPart : Str → Bool
  | [] => true
  | c :: t =>
      (c == 'e' || c == 'E') &&
      (match t with
       | '+' :: u => !u.isEmpty && u.all Char.isDigit
       | '-' :: u => !u.isEmpty && u.all Char.isDigit
       | u => !u.isEmpty && u.all Char.isDigit)

/-- Nonterminal `Number` of the Rust float grammar:
`Digit+ ('.' Digit*)? Exp? | '.' Digit+ Exp?` (at least one digit overall,
with `Digit+ '.' Digit*` also allowed). -/
def numberOk (s : Str) : Bool :=
  let ip := s.takeWhile Char.isDigit
  match s.dropWhile Char.isDigit with
  | '.' :: t =>
      (!ip.isEmpty || !(t.takeWhile Char.isDigit).isEmpty) &&
      expPart (t.dropWhile Char.isDigit)
  | r => !ip.isEmpty && expPart r

/-- Acceptance of Rust `str::parse::<f64>`:
`Sign? ('inf' | 'infinity' | 'nan' | Number)`, keywords case-insensitive.
(Out-of-range magnitudes round to infinity or zero but still parse, so
acceptance is purely syntactic.) -/
def parseF64ok (s : Str) : Bool :=
  let body : Str :=
    match s with
    | '+' :: t => t
    | '-' :: t => t
    | t => t
  let low := body.map Char.toLower
  if low = "inf".data ∨ low = "infinity".data ∨ low = "nan".data then true
  else numberOk body

/-- The regex `\((C|RM)\)` of proton.rs line 112 has a match: the value
contains `(C)` or `(RM)`. -/
def flaggedMeas (v : Str) : Bool :=
  containsSub "(C)".data v || containsSub "(RM)".data v

/-- The `is_valid_number` closure of proton.rs lines 162-168. -/
def isValidNumber (v : Str) : Bool :=
  let t := trim v
  !t.isEmpty && parseF64ok t

/-- The `get_value` closure of proton.rs lines 170-177, applied to the
cell's text. -/
def getValueMeas (v : Str) : Option Str :=
  if v.isEmpty || flaggedMeas v || !isValidNumber v then none else some v

/-- Function `parse_time_to_target_format` (proton.rs lines 63-79), with chrono's
`NaiveDateTime::parse_from_str` and `format` abstracted as `parse`/`fmt`;
`none` models the `Err` results. -/
def parseTimeToTargetFormat {DT : Type} (parse : Str → Str → Option DT)
    (fmt : Str → DT → Str) (time_str : Str) : Option Str :=
  let t := trim time_str
  if t.contains 'T' then
    ((parse "%Y-%m-%dT%H:%M:%S".data t).orElse
      (fun _ => parse "%Y-%m-%dT%H:%M:%S%.f".data t)).map
      (fmt "%Y-%m-%d %H:%M:%S".data)
  else if t.contains ' ' then
    ((parse "%Y-%m-%d %H:%M:%S".data t).orElse
      (fun _ => parse "%Y/%m/%d %H:%M:%S".data t)).map
      (fmt "%Y-%m-%d %H:%M:%S".data)
  else none

/-- One emitted `DataRow` of proton.rs lines 9-19. -/
structure ProtonRow where
  time : Str
  no3 : Option Str
  so4 : Option Str
  nh4 : Option Str
  cl : Option Str
  kIon : Option Str
  naIon : Option Str
  mgIon : Option Str
  caIon : Option Str
deriving DecidableEq

/-- The body of the data-row loop of proton.rs lines 153-190 on one row's
cell texts: `none` models the `continue` for an empty time cell; otherwise
the row is pushed with the normalized (or passed-through) time and the
gated measurement values. -/
def processRowProton {DT : Type} (parse : Str → Str → Option DT)
    (fmt : Str → DT → Str)
    (timeV vNo3 vSo4 vNh4 vCl vK vNa vMg vCa : Str) : Option ProtonRow :=
  if timeV.isEmpty then none
  else
    some ⟨(parseTimeToTargetFormat parse fmt timeV).getD timeV,
      getValueMeas vNo3, getValueMeas vSo4, getValueMeas vNh4,
      getValueMeas vCl, getValueMeas vK, getValueMeas vNa,
      getValueMeas vMg, getValueMeas vCa⟩


/-! ### The coordinate codec (main.rs lines 39-52) -/

/-- The loop body of `column_number_to_name`, with fuel; each iteration
prepends one letter and divides, so `fuel = n` iterations always finish. -/
def colNameF : Nat → Nat → Str
  | _, 0 => []
  | 0, _ + 1 => []
  | fuel + 1, n + 1 => colNameF fuel (n / 26) ++ [Char.ofNat (65 + n % 26)]

/-- Function `column_number_to_name` (main.rs lines 39-48): bijective base-26,
`1 → "A"`, `26 → "Z"`, `27 → "AA"`; the loop does not run for input 0. -/
def column_number_to_name (n : Nat) : Str := colNameF n n

/-- Decoding a column name under bijective base-26 (`A` = 1 … `Z` = 26,
no zero digit); the inverse the spec's round-trip property refers to. -/
def columnNameValue (s : Str) : Nat :=
  s.foldl (fun acc c => acc * 26 + (c.toNat - 64)) 0


/-! ### Helper lemmas about substring search and replacement -/

theorem containsSub_of_isPrefixOf {x s : Str} (h : List.isPrefixOf x s = true) :
    containsSub x s = true := by
  cases s with
  | nil => simpa [containsSub] using h
  | cons c rest => simp [containsSub, h]

theorem containsSub_cons {x s : Str} (c : Char) (h : containsSub x s = true) :
    containsSub x (c :: s) = true := by
  simp [containsSub, h]

theorem containsSub_append_self (x t : Str) : containsSub x (x ++ t) = true :=
  containsSub_of_isPrefixOf (by simp)

/-- If a non-empty pattern occurs in `s`, then the replacement string occurs
in the result of `replaceAllF` (given sufficient fuel). -/
theorem containsSub_replaceAllF {p r : Str} (hp : p ≠ []) :
    ∀ fuel s, s.length ≤ fuel → containsSub p s = true →
      containsSub r (replaceAllF p r fuel s) = true := by
  intro fuel
  induction fuel with
  | zero =>
    intro s hlen hc
    have hs : s = [] := List.length_eq_zero.mp (Nat.le_zero.mp hlen)
    subst hs
    cases p with
    | nil => exact absurd rfl hp
    | cons a as => simp [containsSub, List.isPrefixOf] at hc
  | succ fuel ih =>
    intro s hlen hc
    cases s with
    | nil =>
      cases p with
      | nil => exact absurd rfl hp
      | cons a as => simp [containsSub, List.isPrefixOf] at hc
    | cons c rest =>
      by_cases hpre : List.isPrefixOf p (c :: rest) = true
      · simp only [replaceAllF, hpre, if_true]
        exact containsSub_append_self r _
      · simp only [replaceAllF, hpre, Bool.false_eq_true, if_false]
        have hc' : containsSub p rest = true := by
          simp only [containsSub, Bool.or_eq_true] at hc
          exact hc.resolve_left hpre
        have hlen' : rest.length ≤ fuel := by
          simpa using Nat.le_of_succ_le_succ (by simpa using hlen)
        exact containsSub_cons c (ih rest hlen' hc')

/-- After the general `总烃(ppbvC)` substitution of line 109-111 has run,
the value can no longer equal that pattern, so the targeted D1 check of
line 113 can never succeed. -/
theorem subst3_ne_pat3 (w : Str) : subst3 w ≠ pat3 := by
  unfold subst3
  by_cases h : containsSub pat3 w = true
  · rw [if_pos h]
    intro heq
    have hr : containsSub rep3 (replaceAll pat3 rep3 w) = true :=
      containsSub_replaceAllF (by decide) w.length w le_rfl h
    rw [heq] at hr
    exact absurd hr (by decide)
  · rw [if_neg h]
    intro heq
    exact h (by rw [heq]; decide)

/-- The targeted header correction never fires: the two substitution
pipelines agree on every input. -/
theorem substStep_eq_noTarget (row col : Nat) (v : Str) :
    substStep row col v = substStepNoTarget v := by
  have h : ∀ u, targetedD1 row col (subst3 u) = subst3 u := by
    intro u
    unfold targetedD1
    rw [if_neg]
    rintro ⟨-, -, h3⟩
    exact subst3_ne_pat3 u h3
  rw [substStep, substStepNoTarget, h]

/-- No rule changes an empty cell. -/
theorem transformValue_nil (i3 k3 q3 ay3 : Str) (row col : Nat) :
    transformValue i3 k3 q3 ay3 row col [] = ([], false) := by
  have t3 : ([] : Str) ≠ pat3 := by decide
  have h1 : substStep row col [] = [] := by
    simp [substStep, subst1, subst2, subst3, subst4, subst5, targetedD1, t3,
      show containsSub pat1 [] = false from by decide,
      show containsSub pat2 [] = false from by decide,
      show containsSub pat3 [] = false from by decide,
      show containsSub pat4 [] = false from by decide,
      show containsSub pat5 [] = false from by decide]
  have h2 : sentinelStep i3 k3 q3 ay3 row col [] = [] := by
    simp [sentinelStep, show containsSub sent [] = false from by decide]
  have h3 : bracketStep row [] = ([], false) := by
    simp [bracketStep, hasParen]
  simp [transformValue, h1, h2, h3]

/-- No rule changes an empty cell: `cellUpdate` yields no update. -/
theorem cellUpdate_nil (i3 k3 q3 ay3 : Str) (row col : Nat) :
    cellUpdate i3 k3 q3 ay3 row col [] = none := by
  simp [cellUpdate, transformValue_nil]

/-! ### Helper lemmas: bracket stripping and trimming -/

theorem afterClose_length {s t : Str} (h : afterClose s = some t) :
    t.length < s.length := by
  induction s with
  | nil => simp [afterClose] at h
  | cons c rest ih =>
    by_cases hc : c = ')'
    · simp only [afterClose, hc, if_pos, Option.some.injEq] at h
      subst h; simp
    · simp only [afterClose, hc, if_neg, not_false_iff] at h
      have := ih h
      simp only [List.length_cons]; omega

theorem afterClose_none_no_close {s : Str} (h : afterClose s = none) :
    s.contains ')' = false := by
  induction s with
  | nil => rfl
  | cons c rest ih =>
    by_cases hc : c = ')'
    · simp [afterClose, hc] at h
    · simp only [afterClose, hc, if_neg, not_false_iff] at h
      have hcb : (')' == c) = false := by
        rw [beq_eq_false_iff_ne]
        exact fun heq => hc heq.symm
      rw [List.contains_cons, hcb, Bool.false_or]
      exact ih h

theorem hasParen_no_close {s : Str} (h : s.contains ')' = false) :
    hasParen s = false := by
  induction s with
  | nil => rfl
  | cons c rest ih =>
    rw [List.contains_cons] at h
    obtain ⟨h1, h2⟩ := Bool.or_eq_false_iff.mp h
    show ((c == '(' && rest.contains ')') || hasParen rest) = false
    rw [h2, Bool.and_false, Bool.false_or]
    exact ih h2

theorem hasParen_stripParensF :
    ∀ fuel s, s.length ≤ fuel → hasParen (stripParensF fuel s) = false := by
  intro fuel
  induction fuel with
  | zero =>
    intro s hlen
    have hs : s = [] := List.length_eq_zero.mp (Nat.le_zero.mp hlen)
    subst hs
    rfl
  | succ fuel ih =>
    intro s hlen
    cases s with
    | nil => rfl
    | cons c rest =>
      have hrest : rest.length ≤ fuel := by
        simp only [List.length_cons] at hlen
        omega
      by_cases hc : c = '('
      · subst hc
        simp only [stripParensF, if_pos]
        cases hac : afterClose rest with
        | some after =>
          have hlt := afterClose_length hac
          exact ih after (by omega)
        | none =>
          have hnc := afterClose_none_no_close hac
          show (('(' == '(' && rest.contains ')') || hasParen rest) = false
          rw [hnc, Bool.and_false, Bool.false_or]
          exact hasParen_no_close hnc
      · simp only [stripParensF, if_neg hc]
        have hcb : (c == '(') = false := by rw [beq_eq_false_iff_ne]; exact hc
        show ((c == '(' && (stripParensF fuel rest).contains ')') ||
          hasParen (stripParensF fuel rest)) = false
        rw [hcb, Bool.false_and, Bool.false_or]
        exact ih rest hrest

theorem hasParen_stripParens (s : Str) : hasParen (stripParens s) = false :=
  hasParen_stripParensF s.length s le_rfl

theorem hasParen_sublist {t s : Str} (hsub : List.Sublist t s)
    (h : hasParen t = true) : hasParen s = true := by
  induction hsub with
  | slnil => exact h
  | cons a _ ih => simp [hasParen, ih h]
  | cons₂ a hs ih =>
    simp only [hasParen, Bool.or_eq_true] at h ⊢
    rcases h with h | h
    · obtain ⟨ha, hcon⟩ := Bool.and_eq_true_iff.mp h
      left
      rw [Bool.and_eq_true]
      refine ⟨ha, ?_⟩
      have hmem : ')' ∈ _ := List.elem_iff.mp hcon
      exact List.elem_iff.mpr (hs.subset hmem)
    · right; exact ih h

theorem hasParen_trim {s : Str} (h : hasParen s = false) :
    hasParen (trim s) = false := by
  have hsub : List.Sublist (trim s) s := by
    have h1 : List.Sublist (trimLeft (trimRight s)) (trimRight s) :=
      List.dropWhile_sublist isWs
    have h2 : List.Sublist (trimRight s) s := by
      have h3 : List.Sublist (trimLeft s.reverse) s.reverse :=
        List.dropWhile_sublist isWs
      have h4 := h3.reverse
      rw [List.reverse_reverse] at h4
      exact h4
    exact h1.trans h2
  cases hp : hasParen (trim s) with
  | false => rfl
  | true => exact absurd (hasParen_sublist hsub hp) (by simp [h])

theorem trimLeft_trimLeft (s : Str) : trimLeft (trimLeft s) = trimLeft s := by
  unfold trimLeft
  exact List.dropWhile_idempotent isWs s

/-- The head of a `dropWhile` result never satisfies the predicate. -/
theorem head?_dropWhile_eq_some {p : Char → Bool} {l : List Char} {c : Char}
    (h : (l.dropWhile p).head? = some c) : p c = false := by
  have h4 := List.head?_dropWhile_not p l
  rw [h] at h4
  exact h4

/-- The last character surviving `trimRight` is not whitespace. -/
theorem trimRight_getLast_not_ws {s : Str} {c : Char}
    (h : (trimRight s).getLast? = some c) : isWs c = false := by
  unfold trimRight trimLeft at h
  rw [List.getLast?_reverse] at h
  exact head?_dropWhile_eq_some h

/-- Function `trimRight` is the identity when the last character is not whitespace. -/
theorem trimRight_eq_self {s : Str}
    (h : ∀ c, s.getLast? = some c → isWs c = false) : trimRight s = s := by
  unfold trimRight
  cases hrev : s.reverse with
  | nil =>
    have hs : s = [] := by
      have := congrArg List.reverse hrev
      simpa using this
    rw [hs]
    rfl
  | cons c t =>
    have hc : isWs c = false := by
      refine h c ?_
      rw [List.getLast?_eq_head?_reverse, hrev]
      rfl
    rw [trimLeft, List.dropWhile_cons, if_neg (by simp [hc])]
    rw [← hrev, List.reverse_reverse]

theorem suffix_getLast? {l₁ l₂ : List Char} (h : List.IsSuffix l₁ l₂)
    (hne : l₁ ≠ []) : l₂.getLast? = l₁.getLast? := by
  obtain ⟨pre, hpre⟩ := h
  rw [← hpre, List.getLast?_append]
  cases hl : l₁.getLast? with
  | none => exact absurd (List.getLast?_eq_none_iff.mp hl) hne
  | some c => rfl

theorem trim_trim (s : Str) : trim (trim s) = trim s := by
  have hL : trimLeft (trim s) = trim s := by
    show trimLeft (trimLeft (trimRight s)) = trim s
    rw [trimLeft_trimLeft]
    rfl
  have hR : trimRight (trim s) = trim s := by
    apply trimRight_eq_self
    intro c hc
    have hne : trim s ≠ [] := by
      intro hnil
      rw [hnil] at hc
      simp at hc
    have hsuf : List.IsSuffix (trim s) (trimRight s) := List.dropWhile_suffix isWs
    have heq := suffix_getLast? hsuf hne
    exact trimRight_getLast_not_ws (by rw [heq, hc])
  show trimLeft (trimRight (trim s)) = trim s
  rw [hR, hL]

/-! ### Helper lemmas: occupied extent -/

theorem lastNonEmptyRow_succ (w : Nat) (row : List Str) :
    lastNonEmptyRow (w + 1) row =
      if row.getD w [] ≠ [] then w + 1 else lastNonEmptyRow w row := by
  unfold lastNonEmptyRow
  rw [List.range_succ, List.foldl_append]
  rfl

theorem lastNonEmptyRow_le (w : Nat) (row : List Str) :
    lastNonEmptyRow w row ≤ w := by
  induction w with
  | zero => simp [lastNonEmptyRow, List.range_zero]
  | succ w ih =>
    rw [lastNonEmptyRow_succ]
    by_cases h : row.getD w [] ≠ []
    · rw [if_pos h]
    · rw [if_neg h]; omega

theorem lastNonEmptyRow_ge {w c : Nat} {row : List Str} (hc : c < w)
    (hne : row.getD c [] ≠ []) : c + 1 ≤ lastNonEmptyRow w row := by
  induction w with
  | zero => omega
  | succ w ih =>
    rw [lastNonEmptyRow_succ]
    by_cases hcw : c = w
    · subst hcw
      rw [if_pos hne]
    · have hlt : c < w := by omega
      have hle := ih hlt
      by_cases h : row.getD w [] ≠ []
      · rw [if_pos h]; omega
      · rw [if_neg h]; exact hle

theorem lastNonEmptyRow_realize {w : Nat} {row : List Str}
    (h : lastNonEmptyRow w row ≠ 0) : ∃ c, c < w ∧ row.getD c [] ≠ [] := by
  induction w with
  | zero => simp [lastNonEmptyRow, List.range_zero] at h
  | succ w ih =>
    rw [lastNonEmptyRow_succ] at h
    by_cases hw : row.getD w [] ≠ []
    · exact ⟨w, Nat.lt_succ_self w, hw⟩
    · rw [if_neg hw] at h
      obtain ⟨c, hc, hne⟩ := ih h
      exact ⟨c, by omega, hne⟩

theorem lastNonEmptyRow_all_empty {w : Nat} {row : List Str}
    (h : ∀ c, c < w → row.getD c [] = []) : lastNonEmptyRow w row = 0 := by
  by_cases h0 : lastNonEmptyRow w row = 0
  · exact h0
  · obtain ⟨c, hc, hne⟩ := lastNonEmptyRow_realize h0
    exact absurd (h c hc) hne

theorem foldl_max_acc {α : Type} (f : α → Nat) :
    ∀ (l : List α) (a : Nat),
      l.foldl (fun acc x => max acc (f x)) a = max a ((l.map f).foldr max 0) := by
  intro l
  induction l with
  | nil => intro a; simp
  | cons x l ih =>
    intro a
    simp only [List.foldl_cons, List.map_cons, List.foldr_cons]
    rw [ih]
    omega

theorem foldr_max_ge {α : Type} (f : α → Nat) {x : α} {l : List α}
    (hx : x ∈ l) : f x ≤ (l.map f).foldr max 0 := by
  induction l with
  | nil => cases hx
  | cons y l ih =>
    simp only [List.map_cons, List.foldr_cons]
    rcases List.mem_cons.mp hx with h | h
    · subst h; omega
    · have := ih h; omega

theorem specRowLast_succ (w : Nat) (row : List Str) :
    specRowLast (w + 1) row =
      if row.getD w [] ≠ [] then max (specRowLast w row) (w + 1)
      else specRowLast w row := by
  unfold specRowLast
  rw [List.range_succ, List.filter_append]
  by_cases h : row.getD w [] ≠ []
  · rw [if_pos h]
    have hd : (fun c => decide (row.getD c [] ≠ [])) w = true := decide_eq_true h
    have hf : List.filter (fun c => decide (row.getD c [] ≠ [])) [w] = [w] := by
      simp only [List.filter_cons, List.filter_nil, hd, if_true]
    rw [hf, List.foldr_append]
    simp only [List.foldr_cons, List.foldr_nil]
    -- foldr g (max (w+1) 0) xs = max (foldr g 0 xs) (w+1)
    have key : ∀ (xs : List Nat) (b : Nat),
        xs.foldr (fun c acc => max (c + 1) acc) b =
          max (xs.foldr (fun c acc => max (c + 1) acc) 0) b := by
      intro xs
      induction xs with
      | nil => intro b; simp
      | cons c xs ihx =>
        intro b
        simp only [List.foldr_cons]
        rw [ihx b]
        omega
    rw [key]
    omega
  · rw [if_neg h]
    have hd : (fun c => decide (row.getD c [] ≠ [])) w = false := by
      simp only [decide_eq_false_iff_not]
      exact h
    have hf : List.filter (fun c => decide (row.getD c [] ≠ [])) [w] = [] := by
      simp only [List.filter_cons, List.filter_nil, hd, if_false, Bool.false_eq_true]
    rw [hf, List.append_nil]

theorem specRowLast_eq (w : Nat) (row : List Str) :
    lastNonEmptyRow w row = specRowLast w row := by
  induction w with
  | zero => simp [lastNonEmptyRow, specRowLast, List.range_zero]
  | succ w ih =>
    rw [lastNonEmptyRow_succ, specRowLast_succ]
    by_cases h : row.getD w [] ≠ []
    · rw [if_pos h, if_pos h, ← ih]
      have := lastNonEmptyRow_le w row
      omega
    · rw [if_neg h, if_neg h, ih]

theorem maxColumnOf_eq (g : Grid) :
    maxColumnOf g =
      if specMaxColumn g = 0 then g.width else specMaxColumn g := by
  unfold maxColumnOf specMaxColumn
  rw [foldl_max_acc]
  have hfun : lastNonEmptyRow g.width = specRowLast g.width :=
    funext (specRowLast_eq g.width)
  rw [hfun]
  simp only [Nat.zero_max]

theorem getCell_row_oob {g : Grid} {r c : Nat} (h : g.rows.length ≤ r) :
    getCell g r c = [] := by
  unfold getCell
  rw [List.getD_eq_default _ _ h]
  simp

theorem rows_getD_mem {g : Grid} {r : Nat} (hr : r < g.rows.length) :
    g.rows.getD r [] ∈ g.rows := by
  have hget : g.rows.getD r [] = g.rows[r] := by
    simp [List.getD_eq_getElem?_getD, List.getElem?_eq_getElem hr]
  rw [hget]
  exact List.getElem_mem hr

theorem getCell_col_oob {g : Grid} {r c : Nat} (h : g.width ≤ c) :
    getCell g r c = [] := by
  unfold getCell
  apply List.getD_eq_default
  by_cases hr : r < g.rows.length
  · exact le_trans (g.hwf _ (rows_getD_mem hr)) h
  · rw [List.getD_eq_default _ _ (by omega)]
    simp

/-- A non-empty cell lies strictly inside the computed occupied extent. -/
theorem getCell_lt_maxColumn {g : Grid} {r c : Nat} (h : getCell g r c ≠ []) :
    c < maxColumnOf g ∧ r < g.rows.length ∧ 0 < g.width ∧ 0 < specMaxColumn g := by
  have hr : r < g.rows.length := by
    by_contra hn
    exact h (getCell_row_oob (by omega))
  have hc : c < g.width := by
    by_contra hn
    exact h (getCell_col_oob (by omega))
  have hne : (g.rows.getD r []).getD c [] ≠ [] := h
  have hge := lastNonEmptyRow_ge hc hne
  rw [specRowLast_eq] at hge
  have hspec := foldr_max_ge (specRowLast g.width) (rows_getD_mem hr)
  have hmax : c + 1 ≤ specMaxColumn g := le_trans hge hspec
  have hpos : 0 < specMaxColumn g := by omega
  refine ⟨?_, hr, by omega, hpos⟩
  rw [maxColumnOf_eq, if_neg (by omega)]
  omega

/-- Membership in the update list, characterized cell by cell. -/
theorem mem_findTargetCells {g : Grid} {r0 c0 : Nat} {u : CellUpdate} :
    ((r0 + 1, c0 + 1), u) ∈ (findTargetCells g).2.2 ↔
      (¬(g.rows.length = 0 ∨ g.width = 0) ∧ r0 < g.rows.length ∧
        c0 < maxColumnOf g ∧
        cellUpdate (getCell g 2 8) (getCell g 2 10) (getCell g 2 16) (getCell g 2 50)
          (r0 + 1) (c0 + 1) (getCell g r0 c0) = some u) := by
  unfold findTargetCells
  by_cases hg : g.rows.length = 0 ∨ g.width = 0
  · rw [if_pos hg]
    constructor
    · intro hmem
      exact absurd hmem (List.not_mem_nil _)
    · rintro ⟨hne, -, -, -⟩
      exact absurd hg hne
  · rw [if_neg hg]
    show _ ∈ updatesOf g ↔ _
    unfold updatesOf
    simp only [List.mem_flatMap, List.mem_filterMap, List.mem_range,
      Option.map_eq_some']
    constructor
    · rintro ⟨a, ha, b, hb, u', hu', heq⟩
      injection heq with hp hu
      injection hp with hra hcb
      have ha' : a = r0 := by omega
      have hb' : b = c0 := by omega
      subst ha'
      subst hb'
      subst hu
      exact ⟨hg, ha, hb, hu'⟩
    · rintro ⟨-, hr, hc, hcell⟩
      exact ⟨r0, hr, c0, hc, u, hcell, rfl⟩

/-! ### Helper lemmas: coordinate codec -/

theorem char_toNat_ofNat {n : Nat} (h : n < 55296) : (Char.ofNat n).toNat = n := by
  have hv : n.isValidChar := Or.inl h
  unfold Char.ofNat
  rw [dif_pos hv]
  rfl

theorem columnNameValue_colNameF :
    ∀ fuel n, n ≤ fuel → columnNameValue (colNameF fuel n) = n := by
  intro fuel
  induction fuel with
  | zero =>
    intro n hn
    have h0 : n = 0 := Nat.le_zero.mp hn
    subst h0
    rfl
  | succ fuel ih =>
    intro n hn
    cases n with
    | zero => rfl
    | succ m =>
      have hdiv : m / 26 ≤ fuel := by
        have := Nat.div_le_self m 26
        omega
      simp only [colNameF]
      unfold columnNameValue
      rw [List.foldl_append]
      simp only [List.foldl_cons, List.foldl_nil]
      have hrec := ih (m / 26) hdiv
      unfold columnNameValue at hrec
      rw [hrec, char_toNat_ofNat (by omega)]
      have hdm := Nat.div_add_mod m 26
      omega

theorem colNameF_ne_nil {fuel n : Nat} (h1 : 1 ≤ n) (h2 : n ≤ fuel) :
    colNameF fuel n ≠ [] := by
  cases fuel with
  | zero => omega
  | succ fuel =>
    cases n with
    | zero => omega
    | succ m => simp [colNameF]

/-! ### Claim theorems -/

/-- C7: coordinate codec round-trip.  For every `1 ≤ n ≤ 18278`, decoding
`column_number_to_name n` under bijective base-26 (A = 1 … Z = 26, no zero
digit) returns `n`; in particular 1 maps to "A", 26 to "Z" and 27 to "AA". -/
theorem C7_codec_roundtrip (n : Nat) (_h1 : 1 ≤ n) (_h2 : n ≤ 18278) :
    columnNameValue (column_number_to_name n) = n ∧
      column_number_to_name 1 = "A".data ∧
      column_number_to_name 26 = "Z".data ∧
      column_number_to_name 27 = "AA".data :=
  ⟨columnNameValue_colNameF n n le_rfl, by decide, by decide, by decide⟩

/-- C7 witness: the round-trip at n = 703. -/
theorem C7_codec_roundtrip_witness :
    columnNameValue (column_number_to_name 703) = 703 :=
  (C7_codec_roundtrip 703 (by decide) (by decide)).1

/-- C8 counterexample: `column_number_to_name 0` does not fail — the loop
body never runs and the function returns the empty string. -/
theorem C8_counterexample : column_number_to_name 0 = [] := by decide

/-- C8 (amended): calling `column_number_to_name` with 0 returns the empty
string rather than signalling an error, and the empty string is returned
exactly for input 0. -/
theorem C8_zero_returns_empty (n : Nat) :
    column_number_to_name n = [] ↔ n = 0 := by
  constructor
  · intro h
    by_contra hn
    exact colNameF_ne_nil (by omega) le_rfl h
  · intro h
    subst h
    rfl

/-- C8 witness: a positive input yields a non-empty name. -/
theorem C8_zero_returns_empty_witness : column_number_to_name 5 ≠ [] :=
  fun h => by cases (C8_zero_returns_empty 5).mp h

/-- C10 counterexample (negation of the claim): there is no input cell on
which the pipeline with the targeted header correction differs from the
pipeline without it — the general substitution of lines 109-111 runs first
and already removes every occurrence of "总烃(ppbvC)", so the equality test
of line 113 can never succeed. -/
theorem C10_counterexample :
    ¬ ∃ row col v, substStep row col v ≠ substStepNoTarget v := by
  rintro ⟨row, col, v, h⟩
  exact h (substStep_eq_noTarget row col v)

/-- C10 (amended): the targeted header correction is dead code, not
necessary: the two pipelines (with and without lines 113-115) are
extensionally equal, both at the substitution step and end-to-end. -/
theorem C10_pipelines_equal (i3 k3 q3 ay3 : Str) (row col : Nat) (v : Str) :
    substStep row col v = substStepNoTarget v ∧
      transformValue i3 k3 q3 ay3 row col v =
        transformValueNoTarget i3 k3 q3 ay3 row col v := by
  refine ⟨substStep_eq_noTarget row col v, ?_⟩
  unfold transformValue transformValueNoTarget
  rw [substStep_eq_noTarget]

/-- C3 counterexample: a cell "总烃(ppbv)" is NOT rewritten by the literal
substitution step (the table's target is "总烃(ppbvC)"): at (row 1, col 1)
the whole pipeline leaves it unchanged and produces no update. -/
theorem C3_counterexample :
    substStep 5 5 "总烃(ppbv)".data = "总烃(ppbv)".data ∧
      cellUpdate [] [] [] [] 1 1 "总烃(ppbv)".data = none ∧
      "总烃(ppbv)".data ≠ "总烃(ppbC)".data :=
  ⟨by decide, by decide, by decide⟩

/-- C3 (amended): the substitution target is "总烃(ppbvC)", not "总烃(ppbv)".
At every position the literal substitution rewrites "总烃(ppbvC)" to
"总烃(ppbC)"; the result still contains a parenthesized span, so at rows ≥ 3
the bracket rule strips it to "总烃" (with highlight), and only at rows 1-2
does the cell end up as "总烃(ppbC)". -/
theorem C3_substitution (row col : Nat) :
    substStep row col "总烃(ppbvC)".data = "总烃(ppbC)".data ∧
      (3 ≤ row →
        transformValue [] [] [] [] row col "总烃(ppbvC)".data = ("总烃".data, true)) ∧
      (row ≤ 2 →
        transformValue [] [] [] [] row col "总烃(ppbvC)".data =
          ("总烃(ppbC)".data, false)) := by
  have hsub : substStep row col ("总烃(ppbvC)".data) = "总烃(ppbC)".data := by
    rw [substStep_eq_noTarget]
    decide
  have hsent : sentinelStep [] [] [] [] row col ("总烃(ppbC)".data) = "总烃(ppbC)".data := by
    unfold sentinelStep
    rw [if_neg]
    rintro ⟨-, hc⟩
    exact absurd hc (by decide)
  refine ⟨hsub, ?_, ?_⟩
  · intro h3
    unfold transformValue
    rw [hsub, hsent]
    unfold bracketStep
    rw [if_pos ⟨h3, by decide⟩]
    decide
  · intro h2
    unfold transformValue
    rw [hsub, hsent]
    unfold bracketStep
    rw [if_neg]
    rintro ⟨h3, -⟩
    omega

/-- C3 witness: the amended claim at (row 3, col 1) and (row 1, col 4). -/
theorem C3_substitution_witness :
    transformValue [] [] [] [] 3 1 "总烃(ppbvC)".data = ("总烃".data, true) ∧
      transformValue [] [] [] [] 1 4 "总烃(ppbvC)".data = ("总烃(ppbC)".data, false) :=
  ⟨(C3_substitution 3 1).2.1 (by decide), (C3_substitution 1 4).2.2 (by decide)⟩

/-- C5 counterexample: the restricted engine (substitutions, bracket
stripping, trim — no sentinel rule) is not idempotent: on
"甲烷非甲(x)烷分析仪" at (row 3, col 1) one pass strips "(x)" and splices
the substitution target "甲烷非甲烷分析仪" together, so a second pass
changes the value again (a re-run would emit this cell in its change set). -/
theorem C5_counterexample :
    restrictedValue 3 1 "甲烷非甲(x)烷分析仪".data = "甲烷非甲烷分析仪".data ∧
      restrictedValue 3 1 (restrictedValue 3 1 "甲烷非甲(x)烷分析仪".data) =
        "NMHC监测仪".data ∧
      restrictedValue 3 1 (restrictedValue 3 1 "甲烷非甲(x)烷分析仪".data) ≠
        restrictedValue 3 1 "甲烷非甲(x)烷分析仪".data :=
  ⟨by decide, by decide, by decide⟩

/-- C5 (amended): rule 4 with the final trim is idempotent — re-applying
bracket stripping and trim to its own output changes nothing, and the
bracket rule never fires (and never sets the highlight) on that output.
The full restricted pipeline is not idempotent, because bracket stripping
can splice a new substitution target together (see the counterexample). -/
theorem C5_bracket_trim_idempotent (row : Nat) (v : Str) :
    bracketTrim row (bracketTrim row v) = bracketTrim row v ∧
      bracketStep row (bracketTrim row v) = (bracketTrim row v, false) := by
  have hnp : ¬3 ≤ row ∨ hasParen (bracketTrim row v) = false := by
    by_cases h3 : 3 ≤ row
    · right
      unfold bracketTrim bracketStep
      by_cases hp : hasParen v = true
      · rw [if_pos ⟨h3, hp⟩]
        exact hasParen_trim (hasParen_stripParens v)
      · rw [if_neg (by rintro ⟨-, hpt⟩; exact hp hpt)]
        have hp' : hasParen v = false := by
          cases h : hasParen v with
          | false => rfl
          | true => exact absurd h hp
        exact hasParen_trim hp'
    · left
      exact h3
  have hstep : bracketStep row (bracketTrim row v) = (bracketTrim row v, false) := by
    unfold bracketStep
    rw [if_neg]
    rintro ⟨h3, hpt⟩
    rcases hnp with h | h
    · exact h h3
    · rw [h] at hpt
      cases hpt
  refine ⟨?_, hstep⟩
  show trim (bracketStep row (bracketTrim row v)).1 = bracketTrim row v
  rw [hstep]
  show trim (bracketTrim row v) = bracketTrim row v
  unfold bracketTrim
  exact trim_trim _

/-- C1: the anchor-gated sentinel rewrite.  At rows ≥ 4, for a value
containing "-999": column 9 with I3 = "a24514" rewrites to "-999#a24041"
and any other I3 leaves the value untouched; likewise column 11 with K3 =
"a24011" → "-999#a24537", column 17 with Q3 = "a24510" → "-999#a24504",
column 51 with AY3 = "a25014" → "-999#a25501"; on any other column the
rule leaves the value untouched (so at most one of the four fires), and
at rows ≤ 3 the rule never fires.  Concretely, cell (4, 9) = "-999" with
matching I3 ends the pipeline as "-999#a24041", and with any other I3 as
"-999". -/
theorem C1_sentinel_rewrite (i3 k3 q3 ay3 : Str) (row col : Nat) (v : Str) :
    (4 ≤ row → containsSub sent v = true →
      ((col = 9 →
          (i3 = "a24514".data →
            sentinelStep i3 k3 q3 ay3 row col v = "-999#a24041".data) ∧
          (i3 ≠ "a24514".data → sentinelStep i3 k3 q3 ay3 row col v = v)) ∧
        (col = 11 →
          (k3 = "a24011".data →
            sentinelStep i3 k3 q3 ay3 row col v = "-999#a24537".data) ∧
          (k3 ≠ "a24011".data → sentinelStep i3 k3 q3 ay3 row col v = v)) ∧
        (col = 17 →
          (q3 = "a24510".data →
            sentinelStep i3 k3 q3 ay3 row col v = "-999#a24504".data) ∧
          (q3 ≠ "a24510".data → sentinelStep i3 k3 q3 ay3 row col v = v)) ∧
        (col = 51 →
          (ay3 = "a25014".data →
            sentinelStep i3 k3 q3 ay3 row col v = "-999#a25501".data) ∧
          (ay3 ≠ "a25014".data → sentinelStep i3 k3 q3 ay3 row col v = v)) ∧
        (col ≠ 9 → col ≠ 11 → col ≠ 17 → col ≠ 51 →
          sentinelStep i3 k3 q3 ay3 row col v = v))) ∧
      (row ≤ 3 → sentinelStep i3 k3 q3 ay3 row col v = v) ∧
      (i3 = "a24514".data →
        transformValue i3 k3 q3 ay3 4 9 "-999".data = ("-999#a24041".data, false)) ∧
      (i3 ≠ "a24514".data →
        transformValue i3 k3 q3 ay3 4 9 "-999".data = ("-999".data, false)) := by
  have hsub : substStep 4 9 "-999".data = "-999".data := by decide
  have hcsent : containsSub sent "-999".data = true := by decide
  have hnob : ¬(3 ≤ 4 ∧ hasParen "-999#a24041".data = true) := by
    rintro ⟨-, hpt⟩
    exact absurd hpt (by decide)
  have hnob2 : ¬(3 ≤ 4 ∧ hasParen "-999".data = true) := by
    rintro ⟨-, hpt⟩
    exact absurd hpt (by decide)
  refine ⟨?_, ?_, ?_, ?_⟩
  · intro h4 hs
    refine ⟨?_, ?_, ?_, ?_, ?_⟩
    · rintro rfl
      constructor
      · intro hi
        simp [sentinelStep, h4, hs, hi]
      · intro hi
        simp [sentinelStep, h4, hs, hi]
    · rintro rfl
      constructor
      · intro hk
        simp [sentinelStep, h4, hs, hk]
      · intro hk
        simp [sentinelStep, h4, hs, hk]
    · rintro rfl
      constructor
      · intro hq
        simp [sentinelStep, h4, hs, hq]
      · intro hq
        simp [sentinelStep, h4, hs, hq]
    · rintro rfl
      constructor
      · intro hay
        simp [sentinelStep, h4, hs, hay]
      · intro hay
        simp [sentinelStep, h4, hs, hay]
    · intro h9 h11 h17 h51
      simp [sentinelStep, h4, hs, h9, h11, h17, h51]
  · intro h3
    unfold sentinelStep
    rw [if_neg]
    rintro ⟨hge, -⟩
    omega
  · intro hi
    subst hi
    unfold transformValue
    rw [hsub]
    have hsent : sentinelStep "a24514".data k3 q3 ay3 4 9 "-999".data =
        "-999#a24041".data := by
      simp [sentinelStep, hcsent]
    rw [hsent]
    unfold bracketStep
    rw [if_neg hnob]
  · intro hi
    unfold transformValue
    rw [hsub]
    have hsent : sentinelStep i3 k3 q3 ay3 4 9 "-999".data = "-999".data := by
      simp [sentinelStep, hcsent, hi]
    rw [hsent]
    unfold bracketStep
    rw [if_neg hnob2]

/-- C1 witness: the sentinel rewrite at (4, 9) with matching and
non-matching anchor, and the rows ≤ 3 exclusion. -/
theorem C1_sentinel_rewrite_witness :
    sentinelStep "a24514".data [] [] [] 4 9 "-999".data = "-999#a24041".data ∧
      sentinelStep "x".data [] [] [] 4 9 "-999".data = "-999".data ∧
      sentinelStep "a24514".data [] [] [] 3 9 "-999".data = "-999".data ∧
      transformValue "a24514".data [] [] [] 4 9 "-999".data =
        ("-999#a24041".data, false) :=
  ⟨(((C1_sentinel_rewrite "a24514".data [] [] [] 4 9 "-999".data).1 (by decide)
      (by decide)).1 rfl).1 rfl,
   (((C1_sentinel_rewrite "x".data [] [] [] 4 9 "-999".data).1 (by decide)
      (by decide)).1 rfl).2 (by decide),
   (C1_sentinel_rewrite "a24514".data [] [] [] 3 9 "-999".data).2.1 (by decide),
   (C1_sentinel_rewrite "a24514".data [] [] [] 4 9 "-999".data).2.2.1 rfl⟩

/-- C2: bracket stripping with highlight.  At rows ≥ 3 a value with a
regex match has every parenthesized span removed and the highlight flag
set; at rows 1-2 the rule never fires and the flag stays false.
Concretely `"foo(bar)"` at (3, 1) becomes `"foo"` with highlight, at
(1, 1) it is left unchanged with no update, a value that is entirely a
parenthesized span trims to the empty string, and multiple spans are all
stripped. -/
theorem C2_bracket_strip (row : Nat) (v : Str) :
    (3 ≤ row → hasParen v = true → bracketStep row v = (stripParens v, true)) ∧
      (3 ≤ row → hasParen v = false → bracketStep row v = (v, false)) ∧
      (row ≤ 2 → bracketStep row v = (v, false)) ∧
      transformValue [] [] [] [] 3 1 "foo(bar)".data = ("foo".data, true) ∧
      cellUpdate [] [] [] [] 3 1 "foo(bar)".data = some ⟨"foo".data, true⟩ ∧
      cellUpdate [] [] [] [] 1 1 "foo(bar)".data = none ∧
      cellUpdate [] [] [] [] 3 1 "(bar)".data = some ⟨[], true⟩ ∧
      transformValue [] [] [] [] 3 1 "a(b)c(d)".data = ("ac".data, true) := by
  refine ⟨?_, ?_, ?_, by decide, by decide, by decide, by decide, by decide⟩
  · intro h3 hp
    unfold bracketStep
    rw [if_pos ⟨h3, hp⟩]
  · intro h3 hp
    unfold bracketStep
    rw [if_neg]
    rintro ⟨-, hpt⟩
    rw [hp] at hpt
    cases hpt
  · intro h2
    unfold bracketStep
    rw [if_neg]
    rintro ⟨h3, -⟩
    omega

/-- C2 witness: the bracket rule at rows 3 and 1 on `"foo(bar)"`. -/
theorem C2_bracket_strip_witness :
    bracketStep 3 "foo(bar)".data = (stripParens "foo(bar)".data, true) ∧
      bracketStep 1 "foo(bar)".data = ("foo(bar)".data, false) :=
  ⟨(C2_bracket_strip 3 "foo(bar)".data).1 (by decide) (by decide),
   (C2_bracket_strip 1 "foo(bar)".data).2.2.1 (by decide)⟩

/-- C9: per-cell graceful degradation of the reshape variant, for every
chrono parse/format capability.  A non-empty time value whose
normalization fails is emitted unchanged (no error); a measurement value
is recorded as absent exactly when it is empty, flagged with "(C)"/"(RM)"
or non-numeric, and is emitted (unchanged) exactly when it is non-empty,
unflagged and numeric — concretely "6.1" is emitted while "6.1(C)",
"6.1(RM)", "abc" and the empty value are absent. -/
theorem C9_graceful_degradation {DT : Type} (parse : Str → Str → Option DT)
    (fmt : Str → DT → Str) (timeV vNo3 vSo4 vNh4 vCl vK vNa vMg vCa : Str) :
    (timeV ≠ [] → parseTimeToTargetFormat parse fmt timeV = none →
      processRowProton parse fmt timeV vNo3 vSo4 vNh4 vCl vK vNa vMg vCa =
        some ⟨timeV, getValueMeas vNo3, getValueMeas vSo4, getValueMeas vNh4,
          getValueMeas vCl, getValueMeas vK, getValueMeas vNa, getValueMeas vMg,
          getValueMeas vCa⟩) ∧
      (∀ w : Str, getValueMeas w = some w ↔
        (w ≠ [] ∧ flaggedMeas w = false ∧ isValidNumber w = true)) ∧
      (∀ w : Str, getValueMeas w = none ↔
        (w = [] ∨ flaggedMeas w = true ∨ isValidNumber w = false)) ∧
      getValueMeas "6.1".data = some "6.1".data ∧
      getValueMeas "6.1(C)".data = none ∧
      getValueMeas "6.1(RM)".data = none ∧
      getValueMeas "abc".data = none ∧
      getValueMeas [] = none := by
  have hcond : ∀ w : Str,
      ((w.isEmpty || flaggedMeas w || !isValidNumber w) = true) ↔
        (w = [] ∨ flaggedMeas w = true ∨ isValidNumber w = false) := by
    intro w
    rw [Bool.or_eq_true, Bool.or_eq_true, Bool.not_eq_true']
    rw [show (w.isEmpty = true) = (w = []) from propext List.isEmpty_iff]
    tauto
  refine ⟨?_, ?_, ?_, by decide, by decide, by decide, by decide, by decide⟩
  · intro hne hp
    have hie : timeV.isEmpty = false := by
      cases timeV with
      | nil => exact absurd rfl hne
      | cons c t => rfl
    unfold processRowProton
    rw [if_neg (by rw [hie]; exact fun hc => Bool.noConfusion hc)]
    rw [hp]
    rfl
  · intro w
    unfold getValueMeas
    by_cases hc : (w.isEmpty || flaggedMeas w || !isValidNumber w) = true
    · rw [if_pos hc]
      constructor
      · intro h
        exact Option.noConfusion h
      · rintro ⟨hne, hf, hn⟩
        rcases (hcond w).mp hc with h | h | h
        · exact absurd h hne
        · rw [hf] at h
          cases h
        · rw [hn] at h
          cases h
    · rw [if_neg hc]
      constructor
      · intro _
        refine ⟨?_, ?_, ?_⟩
        · intro hnil
          exact hc ((hcond w).mpr (Or.inl hnil))
        · cases hf : flaggedMeas w with
          | false => rfl
          | true => exact absurd ((hcond w).mpr (Or.inr (Or.inl hf))) hc
        · cases hn : isValidNumber w with
          | true => rfl
          | false => exact absurd ((hcond w).mpr (Or.inr (Or.inr hn))) hc
      · intro _
        rfl
  · intro w
    unfold getValueMeas
    by_cases hc : (w.isEmpty || flaggedMeas w || !isValidNumber w) = true
    · rw [if_pos hc]
      exact ⟨fun _ => (hcond w).mp hc, fun _ => rfl⟩
    · rw [if_neg hc]
      constructor
      · intro h
        exact Option.noConfusion h
      · intro h
        exact absurd ((hcond w).mpr h) hc

/-- C9 witness: a time value in no recognized format passes through
unchanged; "6.1" is emitted, "6.1(C)" and "abc" are absent. -/
theorem C9_graceful_degradation_witness :
    processRowProton (fun _ _ => (none : Option Unit)) (fun _ _ => [])
        "20260105143932".data "6.1".data "6.1(C)".data "abc".data [] [] [] [] [] =
      some ⟨"20260105143932".data, some "6.1".data, none, none, none, none, none,
        none, none⟩ := by
  have h := (@C9_graceful_degradation Unit (fun _ _ => none) (fun _ _ => [])
      "20260105143932".data "6.1".data "6.1(C)".data "abc".data [] [] [] [] []).1
      (by decide) (by decide)
  rw [h]
  decide

/-- C4 counterexample: on the one-cell grid holding `" a "`, the change
set is empty although `trim(finalValue) ≠ originalValue` — the code
compares the untrimmed pipeline value with the original, not the trimmed
one. -/
theorem C4_counterexample :
    (findTargetCells gridWs).2.2 = [] ∧
      trim (transformValue (getCell gridWs 2 8) (getCell gridWs 2 10)
          (getCell gridWs 2 16) (getCell gridWs 2 50) 1 1 (getCell gridWs 0 0)).1 ≠
        getCell gridWs 0 0 :=
  ⟨by decide, by decide⟩

/-- C4 (amended): a cell appears in the Change Set iff the pipeline value
differs from the original, the comparison being made before trimming
(trim applies only to the stored value); in particular a cell no rule
altered is absent.  The stored entry carries the trimmed value and the
highlight flag. -/
theorem C4_changed_iff_in_changeset (g : Grid) (r0 c0 : Nat) :
    ((∃ u, ((r0 + 1, c0 + 1), u) ∈ (findTargetCells g).2.2) ↔
        (transformValue (getCell g 2 8) (getCell g 2 10) (getCell g 2 16)
            (getCell g 2 50) (r0 + 1) (c0 + 1) (getCell g r0 c0)).1 ≠
          getCell g r0 c0) ∧
      ∀ u, ((r0 + 1, c0 + 1), u) ∈ (findTargetCells g).2.2 →
        u = ⟨trim (transformValue (getCell g 2 8) (getCell g 2 10) (getCell g 2 16)
              (getCell g 2 50) (r0 + 1) (c0 + 1) (getCell g r0 c0)).1,
            (transformValue (getCell g 2 8) (getCell g 2 10) (getCell g 2 16)
              (getCell g 2 50) (r0 + 1) (c0 + 1) (getCell g r0 c0)).2⟩ := by
  constructor
  · constructor
    · rintro ⟨u, hmem⟩
      obtain ⟨-, -, -, hcell⟩ := mem_findTargetCells.mp hmem
      unfold cellUpdate at hcell
      by_cases hch : (transformValue (getCell g 2 8) (getCell g 2 10) (getCell g 2 16)
          (getCell g 2 50) (r0 + 1) (c0 + 1) (getCell g r0 c0)).1 ≠ getCell g r0 c0
      · exact hch
      · rw [if_neg hch] at hcell
        exact Option.noConfusion hcell
    · intro hch
      have hne : getCell g r0 c0 ≠ [] := by
        intro h0
        rw [h0] at hch
        rw [transformValue_nil] at hch
        exact hch rfl
      obtain ⟨hcmax, hr, hw, -⟩ := getCell_lt_maxColumn hne
      refine ⟨⟨trim (transformValue (getCell g 2 8) (getCell g 2 10) (getCell g 2 16)
          (getCell g 2 50) (r0 + 1) (c0 + 1) (getCell g r0 c0)).1,
          (transformValue (getCell g 2 8) (getCell g 2 10) (getCell g 2 16)
            (getCell g 2 50) (r0 + 1) (c0 + 1) (getCell g r0 c0)).2⟩,
        mem_findTargetCells.mpr ⟨?_, hr, hcmax, ?_⟩⟩
      · rintro (h0 | h0) <;> omega
      · unfold cellUpdate
        rw [if_pos hch]
  · intro u hmem
    obtain ⟨-, -, -, hcell⟩ := mem_findTargetCells.mp hmem
    unfold cellUpdate at hcell
    by_cases hch : (transformValue (getCell g 2 8) (getCell g 2 10) (getCell g 2 16)
        (getCell g 2 50) (r0 + 1) (c0 + 1) (getCell g r0 c0)).1 ≠ getCell g r0 c0
    · rw [if_pos hch] at hcell
      injection hcell with h
      exact h.symm
    · rw [if_neg hch] at hcell
      exact Option.noConfusion hcell

/-- C4 witness: on the grid whose only content is `"foo(bar)"` at (3, 1),
that changed cell is in the change set. -/
theorem C4_changed_iff_in_changeset_witness :
    ∃ u, ((3, 1), u) ∈ (findTargetCells gridChange).2.2 :=
  (C4_changed_iff_in_changeset gridChange 2 0).1.mpr (by decide)

theorem foldr_max_eq_zero {α : Type} (f : α → Nat) {l : List α}
    (h : ∀ x ∈ l, f x = 0) : (l.map f).foldr max 0 = 0 := by
  induction l with
  | nil => rfl
  | cons x l ih =>
    simp only [List.map_cons, List.foldr_cons]
    rw [h x (List.mem_cons_self x l), ih fun y hy => h y (List.mem_cons_of_mem _ hy)]
    rfl

/-- C6: the occupied extent.  `maxRow` is always the grid height (rows are
not trimmed); when some cell has content, `maxColumn` is the maximum over
all rows of that row's last non-empty 1-based column index, and when no
cell has content it falls back to the nominal width.  Concretely, a grid
whose row 1 has content up to column 5 (nominal width 7) and whose row 2
is entirely empty yields maxColumn = 5 and maxRow = 2. -/
theorem C6_occupied_extent (g : Grid) :
    (findTargetCells g).1 = g.rows.length ∧
      ((∃ r c, getCell g r c ≠ []) → (findTargetCells g).2.1 = specMaxColumn g) ∧
      ((∀ r c, getCell g r c = []) → (findTargetCells g).2.1 = g.width) ∧
      (findTargetCells gridExtent).1 = 2 ∧ (findTargetCells gridExtent).2.1 = 5 := by
  refine ⟨?_, ?_, ?_, by decide, by decide⟩
  · unfold findTargetCells
    split <;> rfl
  · rintro ⟨r, c, hne⟩
    obtain ⟨-, hr, hw, hpos⟩ := getCell_lt_maxColumn hne
    unfold findTargetCells
    rw [if_neg (by rintro (h0 | h0) <;> omega)]
    show maxColumnOf g = specMaxColumn g
    rw [maxColumnOf_eq, if_neg (by omega)]
  · intro hall
    have hzero : specMaxColumn g = 0 := by
      unfold specMaxColumn
      apply foldr_max_eq_zero
      intro row hrow
      obtain ⟨i, hi, heq⟩ := List.mem_iff_getElem.mp hrow
      rw [← specRowLast_eq]
      apply lastNonEmptyRow_all_empty
      intro c hc
      have hgd : g.rows.getD i [] = row := by
        simp [List.getD_eq_getElem?_getD, List.getElem?_eq_getElem hi, heq]
      have hcell := hall i c
      unfold getCell at hcell
      rw [hgd] at hcell
      exact hcell
    unfold findTargetCells
    by_cases hg : g.rows.length = 0 ∨ g.width = 0
    · rw [if_pos hg]
      show 0 = g.width
      rcases hg with h0 | h0
      · exact (g.hne (List.length_eq_zero.mp h0)).symm
      · exact h0.symm
    · rw [if_neg hg]
      show maxColumnOf g = g.width
      rw [maxColumnOf_eq, if_pos hzero]

/-- C6 witness: on the concrete two-row grid, `maxColumn` equals the
spec-side maximum of per-row last non-empty indices. -/
theorem C6_occupied_extent_witness :
    (findTargetCells gridExtent).2.1 = specMaxColumn gridExtent :=
  (C6_occupied_extent gridExtent).2.1 ⟨0, 0, by decide⟩

end DtEEMCG
